import Mathlib

/-!
# TEZ watch-party server and client: room synchronisation core

A shallow embedding of `src/server.js` (room registry, event log, the
`/api/room/{code}/...` handlers) and of the reconciliation part of
`src/public/app.js` (`applyState`, `emitPlayerState`, the 150 ms timer).

Conventions of the embedding:
* JavaScript strings are lists of characters.
* `Date.now()` and `Math.random()` are inputs: every call site of the source
  takes the value it reads as an explicit argument.
* A finite JavaScript number is the rational it denotes; `NaN` and the two
  infinities are separate values of `JsNum`.
* The subtraction of two numbers is the IEEE 754 binary64 one: the exact
  difference rounded to the nearest double, ties to even (`doubleSub`).
* The library coercions whose definition lies outside the repository
  (`Number` of a string, `String` of a number, coercions of objects) are
  fields of `JsLib`; every theorem holds for all of them.
-/

namespace TEZ

/-! ## JavaScript values -/

/-- JavaScript strings. -/
abbrev JsString := List Char

/-- JavaScript numbers: `NaN`, the infinities and the finite values. -/
inductive JsNum where
  | nan
  | negInf
  | posInf
  | fin (q : ℚ)
  deriving DecidableEq

/-- The comparison `a > b` of two JavaScript numbers (false whenever `NaN` is involved). -/
def JsNum.gt : JsNum → JsNum → Bool
  | .fin a, .fin b => decide (b < a)
  | .posInf, .fin _ => true
  | .posInf, .negInf => true
  | .fin _, .negInf => true
  | _, _ => false

/-- The call `Math.abs(a)`. -/
def JsNum.abs : JsNum → JsNum
  | .nan => .nan
  | .negInf => .posInf
  | .posInf => .posInf
  | .fin q => .fin |q|

/-- Position of the leading bit of `n` (0 for `n < 2`), by halving at most `fuel` times. -/
def log2Fuel : Nat → Nat → Nat
  | 0, _ => 0
  | fuel + 1, n => if n < 2 then 0 else log2Fuel fuel (n / 2) + 1

/-- The integer part of the binary logarithm of `n ≥ 1`. -/
def log2Nat (n : Nat) : Nat :=
  log2Fuel n n

/-- The power `2 ^ k` for an integer `k`. -/
def pow2 (k : Int) : ℚ :=
  if 0 ≤ k then ((2 ^ k.toNat : Nat) : ℚ) else 1 / ((2 ^ (-k).toNat : Nat) : ℚ)

/-- The binary exponent of `a > 0`: the `e` with `2 ^ e ≤ a < 2 ^ (e + 1)`. -/
def binExp (a : ℚ) : Int :=
  let e0 : Int := (log2Nat a.num.natAbs : Int) - (log2Nat a.den : Int)
  if pow2 e0 ≤ a then e0 else e0 - 1

/-- The integer nearest to `s`, the even one of the two when `s` lies half way. -/
def roundHalfEven (s : ℚ) : Int :=
  if s - ⌊s⌋ < 1 / 2 then ⌊s⌋
  else if 1 / 2 < s - ⌊s⌋ then ⌊s⌋ + 1
  else if ⌊s⌋ % 2 = 0 then ⌊s⌋
  else ⌊s⌋ + 1

/-- IEEE 754 binary64 rounding of an exact result `x`, to nearest, ties to even:
53 significant bits, the spacing `2 ^ (e - 52)` at binary exponent `e`, never
finer than `2 ^ (-1074)` (subnormal range), and an infinity once the rounded
magnitude reaches `2 ^ 1024`. -/
def roundDouble (x : ℚ) : JsNum :=
  if x = 0 then .fin 0
  else
    let k := max (binExp |x|) (-1022) - 52
    let y := (roundHalfEven (x / pow2 k) : ℚ) * pow2 k
    if pow2 1024 ≤ |y| then (if 0 < x then .posInf else .negInf) else .fin y

/-- The expression `a - b` on two finite doubles. -/
def doubleSub (a b : ℚ) : JsNum :=
  roundDouble (a - b)

/-- A value found in a parsed JSON body (or `undefined` for a missing field).
Objects and arrays are kept abstract behind a reference. -/
inductive JsVal where
  | undefined
  | null
  | bool (b : Bool)
  | num (x : JsNum)
  | str (s : JsString)
  | obj (ref : Nat)
  deriving DecidableEq

/-- Library coercions defined by ECMAScript, not by this repository. -/
structure JsLib where
  /-- `Number(s)` for a string `s` (StringToNumber). -/
  stringToNumber : JsString → JsNum
  /-- `String(x)` for a number `x` (Number::toString). -/
  numberToString : JsNum → JsString
  /-- `Number(o)` for an object or array. -/
  objToNumber : Nat → JsNum
  /-- `String(o)` for an object or array. -/
  objToString : Nat → JsString

/-- ToBoolean: `Boolean(v)`, also the test made by `||`, `!` and `if`. -/
def JsVal.truthy : JsVal → Bool
  | .undefined => false
  | .null => false
  | .bool b => b
  | .num .nan => false
  | .num (.fin q) => decide (q ≠ 0)
  | .num _ => true
  | .str s => !s.isEmpty
  | .obj _ => true

/-- The expression `a || b`. -/
def JsVal.or (a b : JsVal) : JsVal :=
  if a.truthy then a else b

/-- The call `Number(v)`. -/
def JsVal.toNumber (lib : JsLib) : JsVal → JsNum
  | .undefined => .nan
  | .null => .fin 0
  | .bool true => .fin 1
  | .bool false => .fin 0
  | .num x => x
  | .str s => lib.stringToNumber s
  | .obj r => lib.objToNumber r

/-- The call `String(v)`. -/
def JsVal.toJsString (lib : JsLib) : JsVal → JsString
  | .undefined => "undefined".toList
  | .null => "null".toList
  | .bool true => "true".toList
  | .bool false => "false".toList
  | .num x => lib.numberToString x
  | .str s => s
  | .obj r => lib.objToString r

/-- White space and line terminators removed by `String.prototype.trim`. -/
def isTrimChar (c : Char) : Bool :=
  decide (c.toNat ∈ [0x09, 0x0A, 0x0B, 0x0C, 0x0D, 0x20, 0xA0, 0x1680, 0x2000, 0x2001,
    0x2002, 0x2003, 0x2004, 0x2005, 0x2006, 0x2007, 0x2008, 0x2009, 0x200A, 0x2028,
    0x2029, 0x202F, 0x205F, 0x3000, 0xFEFF])

/-- The method `s.trim()`. -/
def trim (s : JsString) : JsString :=
  (s.dropWhile isTrimChar).rdropWhile isTrimChar

/-- The method `s.toUpperCase()`. Room codes are a segment of a URL pathname,
which is serialised in ASCII; there the mapping is the letter-wise ASCII one. -/
def toUpperCase (s : JsString) : JsString :=
  s.map Char.toUpper

/-- The call `arr.splice(0, arr.length - cap)` guarded by `arr.length > cap`:
the oldest entries are removed until `cap` remain. -/
def capTo (cap : Nat) (arr : List α) : List α :=
  if arr.length > cap then arr.drop (arr.length - cap) else arr

/-! ## Server data model (`src/server.js`) -/

/-- The object stored in `room.playerState`. -/
structure PlayerState where
  currentTime : JsNum
  isPlaying : Bool
  updatedAt : Nat
  deriving DecidableEq

/-- A chat message (`msg` of the chat handler). -/
structure ChatMsg where
  id : ℚ
  username : JsString
  text : JsString
  timestamp : Nat
  deriving DecidableEq

/-- The `type` string of an event: `video-updated`, `player-sync` or `chat-message`. -/
inductive EventType where
  | videoUpdated
  | playerSync
  | chatMessage
  deriving DecidableEq

/-- The `data` object of an event, one shape per call site of `pushEvent`. -/
inductive EventData where
  | video (videoUrl : JsString) (by_ : JsString)
  | player (state : PlayerState)
  | chat (msg : ChatMsg)
  deriving DecidableEq

/-- An entry of `room.events`; `at_` is the field `at`. -/
structure Event where
  id : ℚ
  type : EventType
  data : EventData
  at_ : Nat
  deriving DecidableEq

/-- A room of the `rooms` map. -/
structure Room where
  videoUrl : JsString
  playerState : PlayerState
  chat : List ChatMsg
  events : List Event
  deriving DecidableEq

/-- The readings one call of `pushEvent` makes: `Date.now()` for the id,
`Math.random()`, and `Date.now()` for `at`. -/
structure PushEnv where
  idNow : Nat
  rand : ℚ
  atNow : Nat
  deriving DecidableEq

/-- The event object built by `pushEvent`. -/
def mkEvent (type : EventType) (data : EventData) (env : PushEnv) : Event :=
  { id := (env.idNow : ℚ) + env.rand, type := type, data := data, at_ := env.atNow }

/-- `pushEvent(room, type, data)` (server.js 82-85). -/
def pushEvent (room : Room) (type : EventType) (data : EventData) (env : PushEnv) : Room :=
  let events := room.events ++ [mkEvent type data env]
  if events.length > 300 then
    { room with events := events.drop (events.length - 300) }
  else
    { room with events := events }

/-! ## Room registry -/

/-- The `rooms` map, in insertion order. -/
abbrev Rooms := List (JsString × Room)

/-- `rooms.has(key)`. -/
def Rooms.has : Rooms → JsString → Bool
  | [], _ => false
  | (k, _) :: rest, key => if k = key then true else Rooms.has rest key

/-- `rooms.get(key)`; `none` is `undefined`. -/
def Rooms.get : Rooms → JsString → Option Room
  | [], _ => none
  | (k, r) :: rest, key => if k = key then some r else Rooms.get rest key

/-- `rooms.set(key, room)`. -/
def Rooms.set : Rooms → JsString → Room → Rooms
  | [], key, room => [(key, room)]
  | (k, r) :: rest, key, room =>
    if k = key then (k, room) :: rest else (k, r) :: Rooms.set rest key room

/-- The room object literal of `ensureRoom`. -/
def freshRoom (now : Nat) : Room :=
  { videoUrl := [],
    playerState := { currentTime := .fin 0, isPlaying := false, updatedAt := now },
    chat := [],
    events := [] }

/-- `ensureRoom(roomCode)` (server.js 69-80): the registry after the call and
the returned pair `[key, rooms.get(key)]`. `now` is read only when the room is created. -/
def ensureRoom (rooms : Rooms) (roomCode : JsString) (now : Nat) :
    Rooms × JsString × Option Room :=
  let key := toUpperCase roomCode
  let rooms1 := if !rooms.has key then rooms.set key (freshRoom now) else rooms
  (rooms1, key, rooms1.get key)

/-! ## Room handlers -/

/-- What a mutating handler leaves behind: the status passed to `sendJson` and the room. -/
structure Reply where
  status : Nat
  room : Room
  deriving DecidableEq

/-- `POST /api/room/{code}/video` (server.js 152-158). -/
def setVideo (lib : JsLib) (room : Room) (username : JsString) (videoUrl : JsVal)
    (now : Nat) (env : PushEnv) : Reply :=
  let room1 := { room with videoUrl := trim ((videoUrl.or (.str [])).toJsString lib) }
  let room2 := { room1 with
    playerState := { currentTime := .fin 0, isPlaying := false, updatedAt := now } }
  { status := 200, room := pushEvent room2 .videoUpdated (.video room2.videoUrl username) env }

/-- `POST /api/room/{code}/player` (server.js 160-169). -/
def setPlayback (lib : JsLib) (room : Room) (currentTime isPlaying : JsVal)
    (now : Nat) (env : PushEnv) : Reply :=
  let room1 := { room with
    playerState :=
      { currentTime := (currentTime.or (.num (.fin 0))).toNumber lib,
        isPlaying := isPlaying.truthy,
        updatedAt := now } }
  { status := 200, room := pushEvent room1 .playerSync (.player room1.playerState) env }

/-- The readings of the chat handler itself: `Date.now()` and `Math.random()` for
the message id, `Date.now()` for its timestamp. -/
structure ChatEnv where
  idNow : Nat
  rand : ℚ
  tsNow : Nat
  deriving DecidableEq

/-- `POST /api/room/{code}/chat` (server.js 171-180). -/
def postChat (lib : JsLib) (room : Room) (username : JsString) (text : JsVal)
    (cenv : ChatEnv) (env : PushEnv) : Reply :=
  let message := trim ((text.or (.str [])).toJsString lib)
  if message.isEmpty then
    { status := 400, room := room }
  else
    let msg : ChatMsg :=
      { id := (cenv.idNow : ℚ) + cenv.rand, username := username, text := message,
        timestamp := cenv.tsNow }
    let chat := room.chat ++ [msg]
    let room1 :=
      if chat.length > 500 then { room with chat := chat.drop (chat.length - 500) }
      else { room with chat := chat }
    { status := 200, room := pushEvent room1 .chatMessage (.chat msg) env }

/-- The body of the events response. -/
structure EventsReply where
  now : Nat
  events : List Event
  deriving DecidableEq

/-- `GET /api/room/{code}/events` (server.js 182-186); `since` is the value of
`Number(searchParams.get('since') || 0)`. -/
def getEvents (room : Room) (since : JsNum) (now : Nat) : EventsReply :=
  { now := now, events := room.events.filter (fun e => (JsNum.fin (e.at_ : ℚ)).gt since) }

/-! ## Sequences of calls -/

/-- One call `pushEvent(room, type, data)` with the readings it makes. -/
structure PushCall where
  type : EventType
  data : EventData
  env : PushEnv
  deriving DecidableEq

/-- A sequence of `pushEvent` calls on one room. -/
def pushAll (room : Room) (calls : List PushCall) : Room :=
  calls.foldl (fun r c => pushEvent r c.type c.data c.env) room

/-- One request `POST /api/room/{code}/player`: the two body fields and the readings. -/
structure PlaybackCall where
  currentTime : JsVal
  isPlaying : JsVal
  now : Nat
  env : PushEnv
  deriving DecidableEq

/-- The `playerState` object the player handler writes for a call. -/
def PlaybackCall.written (lib : JsLib) (c : PlaybackCall) : PlayerState :=
  { currentTime := (c.currentTime.or (.num (.fin 0))).toNumber lib,
    isPlaying := c.isPlaying.truthy,
    updatedAt := c.now }

/-- A sequence of player requests on one room. -/
def setPlaybackAll (lib : JsLib) (room : Room) (calls : List PlaybackCall) : Room :=
  calls.foldl (fun r c => (setPlayback lib r c.currentTime c.isPlaying c.now c.env).room) room

/-! ## Client reconciliation (`src/public/app.js`) -/

/-- The properties of the `videoPlayer` element the client reads and writes;
`currentTime` is a finite double. -/
structure VideoPlayer where
  src : JsString
  currentTime : ℚ
  paused : Bool
  deriving DecidableEq

/-- A `playerState` as the client receives it (`state` of `applyState`);
`currentTime` is a finite double. -/
structure SyncState where
  currentTime : ℚ
  isPlaying : Bool
  deriving DecidableEq

/-- An operation performed on `videoPlayer`: assignment to `currentTime`, `play()`, `pause()`. -/
inductive PlayerOp where
  | seek (time : ℚ)
  | play
  | pause
  deriving DecidableEq

/-- The client variables of `app.js` that reconciliation uses, the pending
`setTimeout(..., 150)` callbacks (by due time, in ms), the operations performed
on the player so far and the bodies of the `POST .../player` requests sent so far. -/
structure Client where
  videoPlayer : VideoPlayer
  currentRoom : JsString
  suppressEvents : Bool
  timers : List Nat
  ops : List PlayerOp
  sent : List SyncState
  deriving DecidableEq

/-- `applyState(state)` called at time `t` (app.js 47-61); `none` is a missing state.
The drift test is `Math.abs(videoPlayer.currentTime - state.currentTime) > 1` on doubles.
Assigning `currentTime` moves the player there, `play()` and `pause()` flip `paused`. -/
def applyState (c : Client) (state : Option SyncState) (t : Nat) : Client :=
  match state with
  | none => c
  | some s =>
    if c.videoPlayer.src.isEmpty then c
    else
      let c1 := { c with suppressEvents := true }
      let c2 :=
        if (JsNum.abs (doubleSub c1.videoPlayer.currentTime s.currentTime)).gt (.fin 1) then
          { c1 with
            videoPlayer := { c1.videoPlayer with currentTime := s.currentTime },
            ops := c1.ops ++ [.seek s.currentTime] }
        else c1
      let c3 :=
        if s.isPlaying && c2.videoPlayer.paused then
          { c2 with
            videoPlayer := { c2.videoPlayer with paused := false },
            ops := c2.ops ++ [.play] }
        else c2
      let c4 :=
        if !s.isPlaying && !c3.videoPlayer.paused then
          { c3 with
            videoPlayer := { c3.videoPlayer with paused := true },
            ops := c3.ops ++ [.pause] }
        else c3
      { c4 with timers := c4.timers ++ [t + 150] }

/-- `emitPlayerState()` (app.js 63-69), the listener of `play`, `pause` and `seeked`. -/
def emitPlayerState (c : Client) : Client :=
  if c.currentRoom.isEmpty || c.suppressEvents then c
  else
    { c with
      sent := c.sent ++
        [{ currentTime := c.videoPlayer.currentTime, isPlaying := !c.videoPlayer.paused }] }

/-- The timeout callbacks that are due at time `t` run: each is
`suppressEvents = false` (app.js 58-60). -/
def runTimers (c : Client) (t : Nat) : Client :=
  if c.timers.any (fun due => decide (due ≤ t)) then
    { c with suppressEvents := false, timers := c.timers.filter (fun due => decide (t < due)) }
  else c

/-- What the event loop runs at a given time. -/
inductive Action where
  | applyState (state : Option SyncState)
  | emitPlayerState
  deriving DecidableEq

/-- One turn of the event loop at time `a.1`: due timeouts first, then the action. -/
def step (c : Client) (a : Nat × Action) : Client :=
  let c1 := runTimers c a.1
  match a.2 with
  | .applyState s => applyState c1 s a.1
  | .emitPlayerState => emitPlayerState c1

/-- A timed trace of actions, in time order. -/
def run (c : Client) (trace : List (Nat × Action)) : Client :=
  trace.foldl step c

/-! ## Vocabulary of the properties -/

/-- The event a `pushEvent` call appends. -/
def PushCall.event (c : PushCall) : Event :=
  mkEvent c.type c.data c.env

/-- The `player-sync` event the player handler appends for a call. -/
def PlaybackCall.event (lib : JsLib) (c : PlaybackCall) : Event :=
  mkEvent .playerSync (.player (c.written lib)) c.env

/-- The `Date.now()` readings stamped on the events never go back along the calls. -/
def ClockMonotone (calls : List PushCall) : Prop :=
  calls.Pairwise (fun a b => a.env.atNow ≤ b.env.atNow)

instance (calls : List PushCall) : Decidable (ClockMonotone calls) :=
  inferInstanceAs
    (Decidable (calls.Pairwise (fun (a b : PushCall) => a.env.atNow ≤ b.env.atNow)))

/-- Two identifiers that differ only in letter case: they agree once every
upper-case ASCII letter is replaced by its lower-case form. -/
def DifferOnlyInCase (a b : JsString) : Prop :=
  a.map Char.toLower = b.map Char.toLower

instance (a b : JsString) : Decidable (DifferOnlyInCase a b) :=
  inferInstanceAs (Decidable (a.map Char.toLower = b.map Char.toLower))

/-- Stand-in for the library coercions on inputs that never reach them
(numbers where a number is expected, strings where a string is expected). -/
def sampleLib : JsLib :=
  { stringToNumber := fun _ => .nan,
    numberToString := fun _ => [],
    objToNumber := fun _ => .nan,
    objToString := fun _ => [] }

/-- Sample readings of a `pushEvent` call made at clock value `t`. -/
def sampleEnv (t : Nat) : PushEnv :=
  { idNow := t, rand := 1 / 2, atNow := t }

/-- A sample `pushEvent` call at clock value `t`. -/
def samplePush (t : Nat) : PushCall :=
  { type := .playerSync,
    data := .player { currentTime := .fin 0, isPlaying := false, updatedAt := t },
    env := sampleEnv t }

/-- A sample player request: position `i` seconds, playing, made at clock value `i + 1`. -/
def samplePlayback (i : Nat) : PlaybackCall :=
  { currentTime := .num (.fin (i : ℚ)), isPlaying := .bool true, now := i + 1,
    env := sampleEnv (i + 1) }

/-- The chat message the chat handler builds from the trimmed text. -/
def mkChatMsg (username message : JsString) (cenv : ChatEnv) : ChatMsg :=
  { id := (cenv.idNow : ℚ) + cenv.rand, username := username, text := message,
    timestamp := cenv.tsNow }

/-- A sample client in room `R1` with a loaded video at position `pos`, no
timeout pending and the suppression flag down. -/
def sampleClient (pos : ℚ) (paused : Bool) : Client :=
  { videoPlayer := { src := "http://v/a.mp4".toList, currentTime := pos, paused := paused },
    currentRoom := "R1".toList,
    suppressEvents := false,
    timers := [],
    ops := [],
    sent := [] }

/-! ## Bounded arrays -/

theorem capTo_length_le (cap : Nat) (arr : List α) : (capTo cap arr).length ≤ cap := by
  unfold capTo
  split
  · simp only [List.length_drop]; omega
  · omega

theorem capTo_of_length_le {cap : Nat} {arr : List α} (h : arr.length ≤ cap) :
    capTo cap arr = arr := by
  unfold capTo
  rw [if_neg (by omega)]

theorem capTo_eq_drop (cap : Nat) (arr : List α) :
    capTo cap arr = arr.drop (arr.length - cap) := by
  unfold capTo
  split
  · rfl
  · rw [show arr.length - cap = 0 by omega, List.drop_zero]

theorem capTo_suffix (cap : Nat) (arr : List α) : capTo cap arr <:+ arr := by
  rw [capTo_eq_drop]
  exact List.drop_suffix _ _

theorem capTo_append_capTo (cap : Nat) (arr more : List α) :
    capTo cap (capTo cap arr ++ more) = capTo cap (arr ++ more) := by
  by_cases h : arr.length ≤ cap
  · rw [capTo_of_length_le h]
  · have hlen : (arr.drop (arr.length - cap)).length = cap := by
      rw [List.length_drop]; omega
    rw [capTo_eq_drop cap (arr ++ more), capTo_eq_drop cap (_ ++ more), capTo_eq_drop cap arr,
      List.length_append, List.length_append, hlen]
    have h1 : cap + more.length - cap = more.length := by omega
    have h2 : arr.length + more.length - cap = (arr.length - cap) + more.length := by omega
    have h3 : (arr ++ more).drop (arr.length - cap) = arr.drop (arr.length - cap) ++ more :=
      List.drop_append_of_le_length (by omega)
    rw [h1, h2, ← List.drop_drop, h3]

/-! ## The event log -/

theorem pushEvent_events (room : Room) (type : EventType) (data : EventData) (env : PushEnv) :
    (pushEvent room type data env).events = capTo 300 (room.events ++ [mkEvent type data env]) := by
  simp only [pushEvent, capTo]
  split <;> simp

theorem pushEvent_rest (room : Room) (type : EventType) (data : EventData) (env : PushEnv) :
    (pushEvent room type data env).videoUrl = room.videoUrl ∧
    (pushEvent room type data env).playerState = room.playerState ∧
    (pushEvent room type data env).chat = room.chat := by
  unfold pushEvent
  simp only
  split <;> exact ⟨rfl, rfl, rfl⟩

theorem pushAll_events (room : Room) (calls : List PushCall) :
    (pushAll room calls).events =
      if calls = [] then room.events else capTo 300 (room.events ++ calls.map PushCall.event) := by
  induction calls generalizing room with
  | nil => simp [pushAll]
  | cons c cs ih =>
    have hstep : pushAll room (c :: cs) = pushAll (pushEvent room c.type c.data c.env) cs := rfl
    rw [hstep, ih, pushEvent_events]
    by_cases hcs : cs = []
    · subst hcs
      simp [PushCall.event]
    · rw [if_neg hcs, if_neg (List.cons_ne_nil _ _), capTo_append_capTo]
      simp [PushCall.event]

theorem pushAll_events_length (room : Room) (calls : List PushCall) (h : calls ≠ []) :
    (pushAll room calls).events.length ≤ 300 := by
  rw [pushAll_events, if_neg h]
  exact capTo_length_le _ _

theorem gt_zero_of_pos (n : Nat) (h : 0 < n) : (JsNum.fin (n : ℚ)).gt (.fin 0) = true := by
  simp [JsNum.gt, h]

/-- C2: after any call of a sequence of `pushEvent` calls the log holds at most
300 entries, and once more than 300 calls with positive timestamps have been
made the events query with `since = 0` returns the events of the last 300
calls, oldest first. -/
theorem eventLog_bounded_recent (room : Room) (calls : List PushCall) (now : Nat)
    (hpos : ∀ c ∈ calls, 0 < c.env.atNow) :
    (∀ k, k < calls.length → (pushAll room (calls.take (k + 1))).events.length ≤ 300) ∧
    (300 < calls.length →
      (getEvents (pushAll room calls) (.fin 0) now).events =
        (calls.map PushCall.event).drop (calls.length - 300)) := by
  constructor
  · intro k hk
    apply pushAll_events_length
    intro hnil
    have h1 := List.length_take (k + 1) calls
    rw [hnil, List.length_nil] at h1
    omega
  · intro hlen
    have hne : calls ≠ [] := by
      intro hnil
      simp [hnil] at hlen
    have hev : (pushAll room calls).events =
        (calls.map PushCall.event).drop (calls.length - 300) := by
      rw [pushAll_events, if_neg hne, capTo_eq_drop, List.length_append, List.length_map]
      rw [show room.events.length + calls.length - 300
        = room.events.length + (calls.length - 300) by omega]
      exact List.drop_append _
    simp only [getEvents, hev]
    rw [List.filter_eq_self]
    intro e he
    have he1 : e ∈ calls.map PushCall.event := List.mem_of_mem_drop he
    obtain ⟨c, hc, rfl⟩ := List.mem_map.mp he1
    exact gt_zero_of_pos _ (hpos c hc)

theorem eventLog_bounded_recent_witness :
    (300 < (List.replicate 301 (samplePush 7)).length) ∧
    (getEvents (pushAll (freshRoom 1) (List.replicate 301 (samplePush 7))) (.fin 0) 9).events =
      ((List.replicate 301 (samplePush 7)).map PushCall.event).drop
        ((List.replicate 301 (samplePush 7)).length - 300) :=
  ⟨by rw [List.length_replicate]; omega,
   (eventLog_bounded_recent (freshRoom 1) (List.replicate 301 (samplePush 7)) 9
      (by
        intro c hc
        rw [List.eq_of_mem_replicate hc]
        decide)).2 (by rw [List.length_replicate]; omega)⟩

/-! ## Watermarks -/

theorem gt_mono_left {a b : Nat} (w : JsNum) (hab : a ≤ b)
    (h : (JsNum.fin (a : ℚ)).gt w = true) : (JsNum.fin (b : ℚ)).gt w = true := by
  cases w with
  | nan => simp [JsNum.gt] at h
  | negInf => simp [JsNum.gt]
  | posInf => simp [JsNum.gt] at h
  | fin q =>
    simp only [JsNum.gt, decide_eq_true_eq] at h ⊢
    have : (a : ℚ) ≤ (b : ℚ) := by exact_mod_cast hab
    exact lt_of_lt_of_le h this

theorem gt_of_gt_watermark (x : ℚ) {w1 w2 : JsNum} (hw : w2.gt w1 = true)
    (h : (JsNum.fin x).gt w2 = true) : (JsNum.fin x).gt w1 = true := by
  cases w2 with
  | nan => simp [JsNum.gt] at h
  | posInf => simp [JsNum.gt] at h
  | negInf => cases w1 <;> simp [JsNum.gt] at hw
  | fin q2 =>
    cases w1 with
    | nan => simp [JsNum.gt] at hw
    | posInf => simp [JsNum.gt] at hw
    | negInf => simp [JsNum.gt]
    | fin q1 =>
      simp only [JsNum.gt, decide_eq_true_eq] at h hw ⊢
      exact lt_trans hw h

theorem filter_suffix_of_sorted (p q : Event → Bool) (log : List Event)
    (hsorted : log.Pairwise (fun a b => a.at_ ≤ b.at_))
    (hqp : ∀ e, q e = true → p e = true)
    (hup : ∀ a b, a.at_ ≤ b.at_ → q a = true → q b = true) :
    log.filter q <:+ log.filter p := by
  induction log with
  | nil => simp
  | cons a t ih =>
    rw [List.pairwise_cons] at hsorted
    by_cases hqa : q a = true
    · have hq : t.filter q = t := List.filter_eq_self.mpr (fun b hb => hup a b (hsorted.1 b hb) hqa)
      have hp : t.filter p = t := List.filter_eq_self.mpr
        (fun b hb => hqp b (hup a b (hsorted.1 b hb) hqa))
      rw [List.filter_cons_of_pos hqa, List.filter_cons_of_pos (hqp a hqa), hq, hp]
    · rw [List.filter_cons_of_neg hqa]
      refine (ih hsorted.2).trans ?_
      by_cases hpa : p a = true
      · rw [List.filter_cons_of_pos hpa]
        exact List.suffix_cons _ _
      · rw [List.filter_cons_of_neg hpa]

theorem pushAll_sorted (room : Room) (calls : List PushCall) (hempty : room.events = [])
    (hclock : ClockMonotone calls) :
    (pushAll room calls).events.Pairwise (fun a b => a.at_ ≤ b.at_) := by
  rw [pushAll_events]
  split
  · rw [hempty]; exact List.Pairwise.nil
  · rw [hempty, List.nil_append]
    refine List.Pairwise.sublist (capTo_suffix _ _).sublist ?_
    rw [List.pairwise_map]
    exact hclock

/-- C3: on a log built by `pushEvent` calls whose clock readings never go back,
the events returned for a later watermark are a suffix of those returned for an
earlier one. -/
theorem getEvents_watermark_suffix (room : Room) (calls : List PushCall) (w1 w2 : JsNum)
    (now1 now2 : Nat) (hempty : room.events = []) (hclock : ClockMonotone calls)
    (hw : w2.gt w1 = true) :
    (getEvents (pushAll room calls) w2 now2).events <:+
      (getEvents (pushAll room calls) w1 now1).events := by
  simp only [getEvents]
  apply filter_suffix_of_sorted _ _ _ (pushAll_sorted room calls hempty hclock)
  · intro e he
    exact gt_of_gt_watermark _ hw he
  · intro a b hab ha
    exact gt_mono_left w2 hab ha

theorem getEvents_watermark_suffix_witness :
    (freshRoom 1).events = [] ∧ ClockMonotone [samplePush 3, samplePush 3, samplePush 8] ∧
    (JsNum.fin 5).gt (.fin 2) = true ∧
    (getEvents (pushAll (freshRoom 1) [samplePush 3, samplePush 3, samplePush 8]) (.fin 5) 9).events
      <:+ (getEvents (pushAll (freshRoom 1) [samplePush 3, samplePush 3, samplePush 8])
        (.fin 2) 9).events :=
  ⟨rfl, by simp [ClockMonotone, samplePush, sampleEnv], by norm_num [JsNum.gt],
   getEvents_watermark_suffix (freshRoom 1) [samplePush 3, samplePush 3, samplePush 8]
     (.fin 2) (.fin 5) 9 9 rfl (by simp [ClockMonotone, samplePush, sampleEnv])
     (by norm_num [JsNum.gt])⟩

/-- C4: a client that takes the `now` of an events response as its next
watermark and polls again on the unchanged room receives no event, the log
holding no event stamped later than that `now`. -/
theorem getEvents_repoll_empty (room : Room) (since : JsNum) (now1 now2 : Nat)
    (hlog : ∀ e ∈ room.events, e.at_ ≤ now1) :
    (getEvents room (.fin ((getEvents room since now1).now : ℚ)) now2).events = [] := by
  simp only [getEvents]
  rw [List.filter_eq_nil_iff]
  intro e he
  have h := hlog e he
  have h2 : ¬ ((now1 : ℚ) < (e.at_ : ℚ)) := by
    rw [not_lt]
    exact_mod_cast h
  simp [JsNum.gt, h2]

theorem pushAll_stamps_le (room : Room) (calls : List PushCall) (now : Nat)
    (hroom : ∀ e ∈ room.events, e.at_ ≤ now) (hcalls : ∀ c ∈ calls, c.env.atNow ≤ now) :
    ∀ e ∈ (pushAll room calls).events, e.at_ ≤ now := by
  intro e he
  rw [pushAll_events] at he
  split at he
  · exact hroom e he
  · have he1 := (capTo_suffix _ _).subset he
    rcases List.mem_append.mp he1 with h | h
    · exact hroom e h
    · obtain ⟨c, hc, rfl⟩ := List.mem_map.mp h
      exact hcalls c hc

theorem getEvents_repoll_empty_witness :
    (getEvents (pushAll (freshRoom 1) [samplePush 3, samplePush 8]) (.fin
      ((getEvents (pushAll (freshRoom 1) [samplePush 3, samplePush 8]) (.fin 0) 8).now : ℚ))
      9).events = [] :=
  getEvents_repoll_empty (pushAll (freshRoom 1) [samplePush 3, samplePush 8]) (.fin 0) 8 9
    (pushAll_stamps_le (freshRoom 1) [samplePush 3, samplePush 8] 8
      (by simp [freshRoom]) (by simp [samplePush, sampleEnv]))

/-! ## The mutating handlers -/

theorem capTo_concat (cap : Nat) (arr : List α) (x : α) :
    capTo (cap + 1) (arr ++ [x]) = capTo cap arr ++ [x] := by
  rw [capTo_eq_drop, capTo_eq_drop, List.length_append, List.length_singleton,
    show arr.length + 1 - (cap + 1) = arr.length - cap by omega]
  exact List.drop_append_of_le_length (by omega)

theorem or_num_toNumber (lib : JsLib) (x : JsNum) :
    ((JsVal.num x).or (.num (.fin 0))).toNumber lib = if x = .nan then .fin 0 else x := by
  cases x with
  | nan => simp [JsVal.or, JsVal.truthy, JsVal.toNumber]
  | negInf => simp [JsVal.or, JsVal.truthy, JsVal.toNumber]
  | posInf => simp [JsVal.or, JsVal.truthy, JsVal.toNumber]
  | fin q =>
    by_cases hq : q = 0
    · simp [JsVal.or, JsVal.truthy, JsVal.toNumber, hq]
    · simp [JsVal.or, JsVal.truthy, JsVal.toNumber, hq]

theorem or_str_toJsString (lib : JsLib) (s : JsString) :
    ((JsVal.str s).or (.str [])).toJsString lib = s := by
  cases s with
  | nil => simp [JsVal.or, JsVal.truthy, JsVal.toJsString]
  | cons c t => simp [JsVal.or, JsVal.truthy, JsVal.toJsString]

theorem setPlayback_room (lib : JsLib) (room : Room) (c : PlaybackCall) :
    (setPlayback lib room c.currentTime c.isPlaying c.now c.env).room =
      pushEvent { room with playerState := c.written lib } .playerSync
        (.player (c.written lib)) c.env := rfl

theorem setPlayback_events (lib : JsLib) (room : Room) (c : PlaybackCall) :
    (setPlayback lib room c.currentTime c.isPlaying c.now c.env).room.events =
      capTo 300 (room.events ++ [c.event lib]) := by
  rw [setPlayback_room, pushEvent_events]
  rfl

theorem setPlayback_playerState (lib : JsLib) (room : Room) (c : PlaybackCall) :
    (setPlayback lib room c.currentTime c.isPlaying c.now c.env).room.playerState =
      c.written lib := by
  rw [setPlayback_room, (pushEvent_rest _ _ _ _).2.1]

theorem setPlaybackAll_events (lib : JsLib) (room : Room) (calls : List PlaybackCall) :
    (setPlaybackAll lib room calls).events =
      if calls = [] then room.events
      else capTo 300 (room.events ++ calls.map (PlaybackCall.event lib)) := by
  induction calls generalizing room with
  | nil => simp [setPlaybackAll]
  | cons c cs ih =>
    have hstep : setPlaybackAll lib room (c :: cs) =
        setPlaybackAll lib (setPlayback lib room c.currentTime c.isPlaying c.now c.env).room cs :=
      rfl
    rw [hstep, ih, setPlayback_events]
    by_cases hcs : cs = []
    · subst hcs
      simp
    · rw [if_neg hcs, if_neg (List.cons_ne_nil _ _), capTo_append_capTo]
      simp

theorem setPlaybackAll_concat (lib : JsLib) (room : Room) (calls : List PlaybackCall)
    (c : PlaybackCall) :
    setPlaybackAll lib room (calls ++ [c]) =
      (setPlayback lib (setPlaybackAll lib room calls) c.currentTime c.isPlaying c.now
        c.env).room := by
  simp [setPlaybackAll, List.foldl_append]

/-- C1 (as amended): after any non-empty sequence of player requests the
room's `playerState` is the one written by the last request (for a numeric
position and a boolean flag: exactly these), and the log is the earlier log
followed by one `player-sync` event per request, in request order, each
carrying the `playerState` that request wrote, cut down to its 300 newest entries. -/
theorem setPlaybackAll_last_writer (lib : JsLib) (room : Room) (calls : List PlaybackCall)
    (c : PlaybackCall) :
    (setPlaybackAll lib room (calls ++ [c])).playerState = c.written lib ∧
    (∀ (q : ℚ) (b : Bool) (now : Nat) (env : PushEnv),
      (setPlaybackAll lib room (calls ++ [⟨.num (.fin q), .bool b, now, env⟩])).playerState =
        { currentTime := .fin q, isPlaying := b, updatedAt := now }) ∧
    (setPlaybackAll lib room (calls ++ [c])).events =
      capTo 300 (room.events ++ (calls ++ [c]).map (PlaybackCall.event lib)) := by
  refine ⟨?_, ?_, ?_⟩
  · rw [setPlaybackAll_concat, setPlayback_playerState]
  · intro q b now env
    rw [setPlaybackAll_concat, setPlayback_playerState]
    simp only [PlaybackCall.written, or_num_toNumber, JsVal.truthy]
    simp
  · rw [setPlaybackAll_events, if_neg (by simp)]

/-- C1 (counterexample): 301 player requests on a new room leave fewer
`player-sync` events in the log than requests were made. -/
theorem setPlaybackAll_log_loses_events :
    ((setPlaybackAll sampleLib (freshRoom 0) ((List.range 301).map samplePlayback)).events.filter
      (fun e => decide (e.type = EventType.playerSync))).length <
      ((List.range 301).map samplePlayback).length := by
  have h1 := List.length_filter_le (fun e => decide (e.type = EventType.playerSync))
    (setPlaybackAll sampleLib (freshRoom 0) ((List.range 301).map samplePlayback)).events
  have h2 : (setPlaybackAll sampleLib (freshRoom 0)
      ((List.range 301).map samplePlayback)).events.length ≤ 300 := by
    rw [setPlaybackAll_events]
    split
    · simp [freshRoom]
    · exact capTo_length_le _ _
  rw [List.length_map, List.length_range]
  omega

/-- C8 (as amended): for every number submitted as position, negative ones
included, the player handler stores that number unchanged (`NaN` alone becomes 0)
together with the boolean `Boolean(isPlaying)`, and the appended `player-sync`
event carries this same state. -/
theorem setPlayback_stores_position (lib : JsLib) (room : Room) (x : JsNum) (isPlaying : JsVal)
    (now : Nat) (env : PushEnv) :
    (setPlayback lib room (.num x) isPlaying now env).room.playerState =
      { currentTime := if x = .nan then .fin 0 else x, isPlaying := isPlaying.truthy,
        updatedAt := now } ∧
    (setPlayback lib room (.num x) isPlaying now env).room.events =
      capTo 299 room.events ++
        [mkEvent .playerSync
          (.player { currentTime := if x = .nan then .fin 0 else x,
                     isPlaying := isPlaying.truthy, updatedAt := now }) env] := by
  have hps := setPlayback_playerState lib room ⟨.num x, isPlaying, now, env⟩
  have hev := setPlayback_events lib room ⟨.num x, isPlaying, now, env⟩
  simp only [PlaybackCall.written, PlaybackCall.event, or_num_toNumber] at hps hev
  exact ⟨hps, by rw [hev, capTo_concat]⟩

/-- C8 (counterexample): the position -5 is stored as -5, below 0. -/
theorem setPlayback_negative_position :
    (setPlayback sampleLib (freshRoom 0) (.num (.fin (-5))) (.bool true) 1
      (sampleEnv 1)).room.playerState.currentTime = .fin (-5) ∧
    (JsNum.fin 0).gt (setPlayback sampleLib (freshRoom 0) (.num (.fin (-5))) (.bool true) 1
      (sampleEnv 1)).room.playerState.currentTime = true := by
  have h := setPlayback_playerState sampleLib (freshRoom 0)
    ⟨.num (.fin (-5)), .bool true, 1, sampleEnv 1⟩
  simp only [PlaybackCall.written, or_num_toNumber] at h
  rw [h, if_neg (by simp)]
  exact ⟨rfl, by norm_num [JsNum.gt]⟩

theorem setVideo_room (lib : JsLib) (room : Room) (username : JsString) (videoUrl : JsVal)
    (now : Nat) (env : PushEnv) :
    (setVideo lib room username videoUrl now env).room =
      pushEvent
        { room with
          videoUrl := trim ((videoUrl.or (.str [])).toJsString lib),
          playerState := { currentTime := .fin 0, isPlaying := false, updatedAt := now } }
        .videoUpdated (.video (trim ((videoUrl.or (.str [])).toJsString lib)) username) env :=
  rfl

/-- C6 (as amended): after the video handler the room's `videoUrl` is the
submitted reference with leading and trailing white space removed, its
`playerState` is position 0, paused, updated now, and exactly one event is
appended to the log (cut to its 300 newest entries), of kind `video-updated`
with payload the trimmed reference and the user. -/
theorem setVideo_sets_trimmed (lib : JsLib) (room : Room) (username reference : JsString)
    (now : Nat) (env : PushEnv) :
    (setVideo lib room username (.str reference) now env).status = 200 ∧
    (setVideo lib room username (.str reference) now env).room.videoUrl = trim reference ∧
    (setVideo lib room username (.str reference) now env).room.playerState =
      { currentTime := .fin 0, isPlaying := false, updatedAt := now } ∧
    (setVideo lib room username (.str reference) now env).room.events =
      capTo 299 room.events ++
        [mkEvent .videoUpdated (.video (trim reference) username) env] ∧
    (setVideo lib room username (.str reference) now env).room.chat = room.chat := by
  have hr := setVideo_room lib room username (.str reference) now env
  rw [or_str_toJsString] at hr
  refine ⟨rfl, ?_, ?_, ?_, ?_⟩
  · rw [hr, (pushEvent_rest _ _ _ _).1]
  · rw [hr, (pushEvent_rest _ _ _ _).2.1]
  · rw [hr, pushEvent_events, capTo_concat]
  · rw [hr, (pushEvent_rest _ _ _ _).2.2]

/-- C6 (counterexample): the reference " a", submitted with a leading blank,
is stored as "a". -/
theorem setVideo_trims_reference :
    (setVideo sampleLib (freshRoom 0) "alice".toList (.str " a".toList) 1
      (sampleEnv 1)).room.videoUrl ≠ " a".toList := by
  rw [setVideo_room, (pushEvent_rest _ _ _ _).1]
  decide

theorem postChat_room (lib : JsLib) (room : Room) (username text : JsString)
    (cenv : ChatEnv) (env : PushEnv) (h : trim text ≠ []) :
    (postChat lib room username (.str text) cenv env).room =
      pushEvent { room with chat := capTo 500 (room.chat ++ [mkChatMsg username (trim text) cenv]) }
        .chatMessage (.chat (mkChatMsg username (trim text) cenv)) env := by
  simp only [postChat, or_str_toJsString, List.isEmpty_eq_true, h, if_false, capTo, mkChatMsg]
  split <;> rfl

/-- C7: a text that is empty once trimmed is refused with status 400 and the
room is left as it was; any other text appends one message carrying the
trimmed text to the chat history and one `chat-message` event to the log, and
the chat history keeps its 500 newest messages only. -/
theorem postChat_validates_and_caps (lib : JsLib) (room : Room) (username text : JsString)
    (cenv : ChatEnv) (env : PushEnv) :
    (trim text = [] →
      (postChat lib room username (.str text) cenv env).status = 400 ∧
      (postChat lib room username (.str text) cenv env).room = room) ∧
    (trim text ≠ [] →
      (postChat lib room username (.str text) cenv env).status = 200 ∧
      (postChat lib room username (.str text) cenv env).room.chat =
        capTo 499 room.chat ++ [mkChatMsg username (trim text) cenv] ∧
      (postChat lib room username (.str text) cenv env).room.events =
        capTo 299 room.events ++
          [mkEvent .chatMessage (.chat (mkChatMsg username (trim text) cenv)) env] ∧
      (postChat lib room username (.str text) cenv env).room.chat.length ≤ 500) ∧
    (room.chat.length ≤ 500 →
      (postChat lib room username (.str text) cenv env).room.chat.length ≤ 500) := by
  have hchat : trim text ≠ [] →
      (postChat lib room username (.str text) cenv env).room.chat =
        capTo 500 (room.chat ++ [mkChatMsg username (trim text) cenv]) := by
    intro h
    rw [postChat_room lib room username text cenv env h, (pushEvent_rest _ _ _ _).2.2]
  refine ⟨?_, ?_, ?_⟩
  · intro h
    simp [postChat, or_str_toJsString, h]
  · intro h
    refine ⟨?_, ?_, ?_, ?_⟩
    · simp [postChat, or_str_toJsString, h]
    · rw [hchat h, capTo_concat]
    · rw [postChat_room lib room username text cenv env h, pushEvent_events, capTo_concat]
    · rw [hchat h]
      exact capTo_length_le _ _
  · intro hlen
    by_cases h : trim text = []
    · simp [postChat, or_str_toJsString, h, hlen]
    · rw [hchat h]
      exact capTo_length_le _ _

theorem postChat_validates_and_caps_witness :
    ((postChat sampleLib (freshRoom 0) "alice".toList (.str "  ".toList) ⟨5, 1 / 2, 5⟩
        (sampleEnv 5)).status = 400 ∧
      (postChat sampleLib (freshRoom 0) "alice".toList (.str "  ".toList) ⟨5, 1 / 2, 5⟩
        (sampleEnv 5)).room = freshRoom 0) ∧
    (postChat sampleLib (freshRoom 0) "alice".toList (.str " hi ".toList) ⟨5, 1 / 2, 5⟩
        (sampleEnv 5)).room.chat =
      capTo 499 (freshRoom 0).chat ++ [mkChatMsg "alice".toList "hi".toList ⟨5, 1 / 2, 5⟩] :=
  ⟨(postChat_validates_and_caps sampleLib (freshRoom 0) "alice".toList "  ".toList
      ⟨5, 1 / 2, 5⟩ (sampleEnv 5)).1 (by decide),
   ((postChat_validates_and_caps sampleLib (freshRoom 0) "alice".toList " hi ".toList
      ⟨5, 1 / 2, 5⟩ (sampleEnv 5)).2.1 (by decide)).2.1⟩

/-! ## The room registry -/

theorem toNat_ofNat_small (n : Nat) (h : n < 0xd800) : (Char.ofNat n).toNat = n := by
  have hv : n.isValidChar := Or.inl h
  unfold Char.ofNat
  rw [dif_pos hv]
  rfl

theorem toNat_toLower (c : Char) :
    c.toLower.toNat = if 65 ≤ c.toNat ∧ c.toNat ≤ 90 then c.toNat + 32 else c.toNat := by
  unfold Char.toLower
  simp only [ge_iff_le]
  split
  · rw [toNat_ofNat_small _ (by omega)]
  · rfl

theorem toNat_toUpper (c : Char) :
    c.toUpper.toNat = if 97 ≤ c.toNat ∧ c.toNat ≤ 122 then c.toNat - 32 else c.toNat := by
  unfold Char.toUpper
  simp only [ge_iff_le]
  split
  · rw [toNat_ofNat_small _ (by omega)]
  · rfl

theorem char_eq_of_toNat_eq (c d : Char) (h : c.toNat = d.toNat) : c = d := by
  rw [← Char.ofNat_toNat c, ← Char.ofNat_toNat d, h]

theorem toUpper_eq_of_toLower_eq (c d : Char) (h : c.toLower = d.toLower) :
    c.toUpper = d.toUpper := by
  apply char_eq_of_toNat_eq
  have h1 := congrArg Char.toNat h
  rw [toNat_toLower, toNat_toLower] at h1
  rw [toNat_toUpper, toNat_toUpper]
  split_ifs at h1 ⊢ <;> omega

theorem toUpperCase_eq_of_differOnlyInCase (a b : JsString) (h : DifferOnlyInCase a b) :
    toUpperCase a = toUpperCase b := by
  unfold DifferOnlyInCase at h
  unfold toUpperCase
  induction a generalizing b with
  | nil =>
    cases b with
    | nil => rfl
    | cons d bs => simp at h
  | cons c as ih =>
    cases b with
    | nil => simp at h
    | cons d bs =>
      simp only [List.map_cons, List.cons.injEq] at h ⊢
      exact ⟨toUpper_eq_of_toLower_eq c d h.1, ih bs h.2⟩

theorem Rooms.get_set (rooms : Rooms) (key : JsString) (room : Room) :
    (rooms.set key room).get key = some room := by
  induction rooms with
  | nil => simp [Rooms.set, Rooms.get]
  | cons p rest ih =>
    obtain ⟨k, r⟩ := p
    by_cases hk : k = key
    · simp [Rooms.set, Rooms.get, hk]
    · simp [Rooms.set, Rooms.get, hk, ih]

theorem Rooms.has_set (rooms : Rooms) (key : JsString) (room : Room) :
    (rooms.set key room).has key = true := by
  induction rooms with
  | nil => simp [Rooms.set, Rooms.has]
  | cons p rest ih =>
    obtain ⟨k, r⟩ := p
    by_cases hk : k = key
    · simp [Rooms.set, Rooms.has, hk]
    · simp [Rooms.set, Rooms.has, hk, ih]

theorem Rooms.get_of_has (rooms : Rooms) (key : JsString) (h : rooms.has key = true) :
    ∃ room, rooms.get key = some room := by
  induction rooms with
  | nil => simp [Rooms.has] at h
  | cons p rest ih =>
    obtain ⟨k, r⟩ := p
    by_cases hk : k = key
    · exact ⟨r, by simp [Rooms.get, hk]⟩
    · simp only [Rooms.has, hk, if_false] at h
      obtain ⟨room, hroom⟩ := ih h
      exact ⟨room, by simp [Rooms.get, hk, hroom]⟩

theorem ensureRoom_of_has (rooms : Rooms) (roomCode : JsString) (now : Nat)
    (h : rooms.has (toUpperCase roomCode) = true) :
    ensureRoom rooms roomCode now =
      (rooms, toUpperCase roomCode, rooms.get (toUpperCase roomCode)) := by
  simp [ensureRoom, h]

theorem ensureRoom_of_not_has (rooms : Rooms) (roomCode : JsString) (now : Nat)
    (h : rooms.has (toUpperCase roomCode) = false) :
    ensureRoom rooms roomCode now =
      (rooms.set (toUpperCase roomCode) (freshRoom now), toUpperCase roomCode,
        some (freshRoom now)) := by
  simp [ensureRoom, h, Rooms.get_set]

theorem ensureRoom_has (rooms : Rooms) (roomCode : JsString) (now : Nat) :
    (ensureRoom rooms roomCode now).1.has (toUpperCase roomCode) = true := by
  cases h : rooms.has (toUpperCase roomCode) with
  | true => rw [ensureRoom_of_has rooms roomCode now h]; exact h
  | false => rw [ensureRoom_of_not_has rooms roomCode now h]; exact Rooms.has_set _ _ _

/-- C5: identifiers that differ only in letter case are resolved by
`ensureRoom` to the same key and the same room; the first call for a key
stores a room with empty `videoUrl`, position 0, not playing, empty chat and
empty events, and a later call (under either spelling) returns the stored room
and leaves the registry as it is. -/
theorem ensureRoom_case_insensitive (rooms : Rooms) (a b : JsString) (t1 t2 : Nat)
    (h : DifferOnlyInCase a b) :
    (ensureRoom rooms b t1).2.1 = (ensureRoom rooms a t1).2.1 ∧
    (ensureRoom rooms b t1).2.2 = (ensureRoom rooms a t1).2.2 ∧
    (∃ room, (ensureRoom rooms a t1).2.2 = some room) ∧
    (rooms.has (toUpperCase a) = false →
      ∃ room, (ensureRoom rooms a t1).2.2 = some room ∧ room.videoUrl = [] ∧
        room.playerState = { currentTime := .fin 0, isPlaying := false, updatedAt := t1 } ∧
        room.chat = [] ∧ room.events = []) ∧
    (rooms.has (toUpperCase a) = true →
      ensureRoom rooms a t1 = (rooms, toUpperCase a, rooms.get (toUpperCase a))) ∧
    ensureRoom (ensureRoom rooms a t1).1 b t2 =
      ((ensureRoom rooms a t1).1, (ensureRoom rooms a t1).2.1, (ensureRoom rooms a t1).2.2) := by
  have hkey := toUpperCase_eq_of_differOnlyInCase a b h
  have hsame : ensureRoom rooms b t1 = ensureRoom rooms a t1 := by
    simp only [ensureRoom, hkey]
  refine ⟨by rw [hsame], by rw [hsame], ?_, ?_, ?_, ?_⟩
  · have hhas := ensureRoom_has rooms a t1
    obtain ⟨room, hroom⟩ := Rooms.get_of_has _ _ hhas
    exact ⟨room, hroom⟩
  · intro hnew
    rw [ensureRoom_of_not_has rooms a t1 hnew]
    exact ⟨freshRoom t1, rfl, rfl, rfl, rfl, rfl⟩
  · intro hold
    exact ensureRoom_of_has rooms a t1 hold
  · have hhas := ensureRoom_has rooms a t1
    rw [hkey] at hhas
    rw [ensureRoom_of_has _ b t2 hhas, ← hkey]
    rfl

theorem ensureRoom_case_insensitive_witness :
    DifferOnlyInCase "abc".toList "AbC".toList ∧
    (ensureRoom [] "AbC".toList 1).2.1 = (ensureRoom [] "abc".toList 1).2.1 ∧
    (ensureRoom [] "AbC".toList 1).2.2 = (ensureRoom [] "abc".toList 1).2.2 ∧
    ensureRoom (ensureRoom [] "abc".toList 1).1 "AbC".toList 2 =
      ((ensureRoom [] "abc".toList 1).1, (ensureRoom [] "abc".toList 1).2.1,
        (ensureRoom [] "abc".toList 1).2.2) ∧
    (ensureRoom [] "abc".toList 1).2.1 = "ABC".toList ∧
    (ensureRoom [] "ABC".toList 1).2.1 = "ABC".toList :=
  ⟨by decide,
   (ensureRoom_case_insensitive [] "abc".toList "AbC".toList 1 2 (by decide)).1,
   (ensureRoom_case_insensitive [] "abc".toList "AbC".toList 1 2 (by decide)).2.1,
   (ensureRoom_case_insensitive [] "abc".toList "AbC".toList 1 2 (by decide)).2.2.2.2.2,
   by decide, by decide⟩

/-! ## Rounding to double precision -/

theorem log2Fuel_spec (fuel n : Nat) (hn : n ≠ 0) (hf : n ≤ fuel) :
    2 ^ log2Fuel fuel n ≤ n ∧ n < 2 ^ (log2Fuel fuel n + 1) := by
  induction fuel generalizing n with
  | zero => omega
  | succ f ih =>
    unfold log2Fuel
    split
    · constructor <;> simp <;> omega
    · have h2 : n / 2 ≠ 0 := by omega
      have h3 : n / 2 ≤ f := by omega
      obtain ⟨h4, h5⟩ := ih (n / 2) h2 h3
      rw [pow_succ, pow_succ]
      constructor <;> omega

theorem log2Nat_spec (n : Nat) (hn : n ≠ 0) :
    2 ^ log2Nat n ≤ n ∧ n < 2 ^ (log2Nat n + 1) :=
  log2Fuel_spec n n hn (le_refl n)

theorem log2Nat_mono (n d : Nat) (hn : n ≠ 0) (h : n ≤ d) : log2Nat n ≤ log2Nat d := by
  have h1 := (log2Nat_spec n hn).1
  have h2 := (log2Nat_spec d (by omega)).2
  have h3 : 2 ^ log2Nat n < 2 ^ (log2Nat d + 1) := by omega
  have h4 := (Nat.pow_lt_pow_iff_right (by omega : 1 < 2)).mp h3
  omega

theorem pow2_eq_zpow (k : Int) : pow2 k = (2 : ℚ) ^ k := by
  unfold pow2
  split
  · rename_i h
    have hk : ((k.toNat : ℕ) : ℤ) = k := Int.toNat_of_nonneg h
    rw [Nat.cast_pow, Nat.cast_ofNat, ← zpow_natCast, hk]
  · rename_i h
    have hk : (((-k).toNat : ℕ) : ℤ) = -k := Int.toNat_of_nonneg (by omega)
    rw [Nat.cast_pow, Nat.cast_ofNat, ← zpow_natCast, hk, zpow_neg, one_div, inv_inv]

theorem pow2_pos (k : Int) : 0 < pow2 k := by
  rw [pow2_eq_zpow]
  positivity

theorem pow2_add (a b : Int) : pow2 (a + b) = pow2 a * pow2 b := by
  rw [pow2_eq_zpow, pow2_eq_zpow, pow2_eq_zpow, zpow_add₀ (by norm_num)]

theorem rat_eq_natAbs_div (a : ℚ) (ha : 0 < a) : a = (a.num.natAbs : ℚ) / (a.den : ℚ) := by
  have hnum : 0 < a.num := Rat.num_pos.mpr ha
  have h1 : ((a.num.natAbs : ℕ) : ℤ) = a.num := Int.natAbs_of_nonneg (le_of_lt hnum)
  have h2 : ((a.num.natAbs : ℕ) : ℚ) = (a.num : ℚ) := by
    have h3 : (((a.num.natAbs : ℕ) : ℤ) : ℚ) = (a.num : ℚ) := by rw [h1]
    rwa [Int.cast_natCast] at h3
  rw [h2, Rat.num_div_den]

theorem natAbs_num_ne_zero (a : ℚ) (ha : 0 < a) : a.num.natAbs ≠ 0 := by
  have hnum : 0 < a.num := Rat.num_pos.mpr ha
  omega

theorem binExp_le_zero (a : ℚ) (ha : 0 < a) (h1 : a ≤ 1) : binExp a ≤ 0 := by
  have hden : (0 : ℚ) < (a.den : ℚ) := by exact_mod_cast a.den_pos
  have hle : a.num.natAbs ≤ a.den := by
    have h := h1
    rw [rat_eq_natAbs_div a ha, div_le_one hden] at h
    exact_mod_cast h
  have hmono := log2Nat_mono _ _ (natAbs_num_ne_zero a ha) hle
  unfold binExp
  simp only
  split <;> omega

theorem pow2_binExp_le (a : ℚ) (ha : 0 < a) : pow2 (binExp a) ≤ a := by
  unfold binExp
  simp only
  split
  · assumption
  · have hden : (0 : ℚ) < (a.den : ℚ) := by exact_mod_cast a.den_pos
    have hn := (log2Nat_spec a.num.natAbs (natAbs_num_ne_zero a ha)).1
    have hd := (log2Nat_spec a.den (by have := a.den_pos; omega)).2
    have hn1 : (2 : ℚ) ^ (log2Nat a.num.natAbs) ≤ (a.num.natAbs : ℚ) := by exact_mod_cast hn
    have hd1 : (a.den : ℚ) ≤ (2 : ℚ) ^ (log2Nat a.den + 1) := by exact_mod_cast le_of_lt hd
    have hsplit : (log2Nat a.num.natAbs : ℤ) - (log2Nat a.den : ℤ) - 1 =
        (log2Nat a.num.natAbs : ℤ) - ((log2Nat a.den + 1 : ℕ) : ℤ) := by push_cast; ring
    rw [pow2_eq_zpow, hsplit, zpow_sub₀ (by norm_num), zpow_natCast, zpow_natCast]
    conv_rhs => rw [rat_eq_natAbs_div a ha]
    exact div_le_div₀ (by positivity) hn1 hden hd1

theorem roundHalfEven_ge (s : ℚ) (m : ℤ) (h : (m : ℚ) ≤ s) : m ≤ roundHalfEven s := by
  have hf : m ≤ ⌊s⌋ := Int.le_floor.mpr h
  unfold roundHalfEven
  split_ifs <;> omega

theorem roundHalfEven_le (s : ℚ) (m : ℤ) (h : s ≤ (m : ℚ)) : roundHalfEven s ≤ m := by
  have hf : ⌊s⌋ ≤ m := by
    have h1 : ((⌊s⌋ : ℤ) : ℚ) ≤ (m : ℚ) := (Int.floor_le s).trans h
    exact_mod_cast h1
  unfold roundHalfEven
  by_cases heq : ⌊s⌋ = m
  · have hs : s - ⌊s⌋ < 1 / 2 := by
      have h0 : s ≤ (⌊s⌋ : ℚ) := by rw [heq]; exact h
      linarith
    rw [if_pos hs]
    omega
  · split_ifs <;> omega

theorem abs_round_le (x p : ℚ) (m : ℤ) (hp : 0 < p) (h : |x| / p ≤ (m : ℚ)) :
    |((roundHalfEven (x / p) : ℤ) : ℚ) * p| ≤ (m : ℚ) * p := by
  have habs : |x / p| ≤ (m : ℚ) := by rwa [abs_div, abs_of_pos hp]
  obtain ⟨hlo, hhi⟩ := abs_le.mp habs
  have h1 : roundHalfEven (x / p) ≤ m := roundHalfEven_le _ _ hhi
  have h2 : -m ≤ roundHalfEven (x / p) := roundHalfEven_ge _ _ (by push_cast; exact hlo)
  have h3 : |((roundHalfEven (x / p) : ℤ) : ℚ)| ≤ (m : ℚ) := by
    rw [abs_le]
    constructor
    · exact_mod_cast h2
    · exact_mod_cast h1
  rw [abs_mul, abs_of_pos hp]
  exact mul_le_mul_of_nonneg_right h3 (le_of_lt hp)

theorem abs_round_ge (x p : ℚ) (m : ℤ) (hp : 0 < p) (h : (m : ℚ) ≤ |x| / p) :
    (m : ℚ) * p ≤ |((roundHalfEven (x / p) : ℤ) : ℚ) * p| := by
  by_cases hx : 0 ≤ x
  · rw [abs_of_nonneg hx] at h
    have h1 : m ≤ roundHalfEven (x / p) := roundHalfEven_ge _ _ h
    have h2 : (m : ℚ) ≤ ((roundHalfEven (x / p) : ℤ) : ℚ) := by exact_mod_cast h1
    exact (mul_le_mul_of_nonneg_right h2 (le_of_lt hp)).trans (le_abs_self _)
  · rw [abs_of_neg (lt_of_not_ge hx), neg_div] at h
    have h0 : x / p ≤ ((-m : ℤ) : ℚ) := by push_cast; linarith
    have h1 : roundHalfEven (x / p) ≤ -m := roundHalfEven_le _ _ h0
    have h2 : ((roundHalfEven (x / p) : ℤ) : ℚ) ≤ -(m : ℚ) := by exact_mod_cast h1
    have h3 := mul_le_mul_of_nonneg_right h2 (le_of_lt hp)
    have h4 := neg_le_abs (((roundHalfEven (x / p) : ℤ) : ℚ) * p)
    linarith

theorem one_lt_pow2_1024 : (1 : ℚ) < pow2 1024 := by
  rw [pow2_eq_zpow]
  norm_num

theorem pow2_of_neg (k : ℤ) (hk : k < 0) : pow2 k = 1 / ((2 ^ (-k).toNat : ℕ) : ℚ) := by
  unfold pow2
  rw [if_neg (by omega)]

theorem roundDouble_le_one (x : ℚ) (h : |x| ≤ 1) :
    (JsNum.abs (roundDouble x)).gt (.fin 1) = false := by
  by_cases hx : x = 0
  · simp [roundDouble, hx, JsNum.abs, JsNum.gt]
  · have ha : 0 < |x| := abs_pos.mpr hx
    have he := binExp_le_zero |x| ha h
    have hk : max (binExp |x|) (-1022) - 52 < 0 := by omega
    have hp := pow2_pos (max (binExp |x|) (-1022) - 52)
    have hpow : (0 : ℚ) < ((2 ^ (-(max (binExp |x|) (-1022) - 52)).toNat : ℕ) : ℚ) := by
      positivity
    have hone : (((2 ^ (-(max (binExp |x|) (-1022) - 52)).toNat : ℕ) : ℤ) : ℚ) *
        pow2 (max (binExp |x|) (-1022) - 52) = 1 := by
      rw [pow2_of_neg _ hk, Int.cast_natCast]
      field_simp
    have hy := abs_round_le x (pow2 (max (binExp |x|) (-1022) - 52))
      ((2 ^ (-(max (binExp |x|) (-1022) - 52)).toNat : ℕ) : ℤ) hp
      (by rw [div_le_iff₀ hp, hone]; exact h)
    rw [hone] at hy
    have hno : ¬ pow2 1024 ≤
        |((roundHalfEven (x / pow2 (max (binExp |x|) (-1022) - 52)) : ℤ) : ℚ) *
          pow2 (max (binExp |x|) (-1022) - 52)| := by
      have := one_lt_pow2_1024
      intro hc
      linarith
    simp only [roundDouble, hx, if_false, hno, JsNum.abs, JsNum.gt, decide_eq_false_iff_not,
      not_lt]
    exact hy

theorem scaled_threshold (n : ℕ) :
    (((2 ^ (n + 52) + 2 ^ n : ℕ) : ℚ)) * (1 / ((2 ^ (n + 52) : ℕ) : ℚ)) = 1 + 1 / 2 ^ 52 := by
  push_cast
  rw [pow_add]
  field_simp
  ring

theorem roundDouble_gt_one (x : ℚ) (h : 1 + 1 / 2 ^ 52 ≤ |x|) :
    (JsNum.abs (roundDouble x)).gt (.fin 1) = true := by
  have hc : (1 : ℚ) < 1 + 1 / 2 ^ 52 := by norm_num
  have ha : 0 < |x| := by linarith
  have hx : x ≠ 0 := abs_pos.mp ha
  have hp := pow2_pos (max (binExp |x|) (-1022) - 52)
  have hM : ∃ m : ℤ, (m : ℚ) * pow2 (max (binExp |x|) (-1022) - 52) ≤ |x| ∧
      1 < (m : ℚ) * pow2 (max (binExp |x|) (-1022) - 52) := by
    by_cases hk : max (binExp |x|) (-1022) - 52 ≤ -52
    · obtain ⟨n, hn⟩ : ∃ n : ℕ, (-(max (binExp |x|) (-1022) - 52)).toNat = n + 52 :=
        ⟨(-(max (binExp |x|) (-1022) - 52)).toNat - 52, by omega⟩
      refine ⟨((2 ^ (n + 52) + 2 ^ n : ℕ) : ℤ), ?_, ?_⟩
      · rw [pow2_of_neg _ (by omega), hn, Int.cast_natCast]
        rw [scaled_threshold]
        exact h
      · rw [pow2_of_neg _ (by omega), hn, Int.cast_natCast]
        rw [scaled_threshold]
        exact hc
    · have he : 1 ≤ binExp |x| := by omega
      have hmax : max (binExp |x|) (-1022) - 52 = binExp |x| - 52 := by omega
      have hprod : ((2 ^ 52 : ℕ) : ℚ) * pow2 (binExp |x| - 52) = pow2 (binExp |x|) := by
        have h52 : ((2 ^ 52 : ℕ) : ℚ) = pow2 52 := by
          rw [pow2_eq_zpow]; norm_num
        rw [h52, ← pow2_add]
        congr 1
        omega
      refine ⟨((2 ^ 52 : ℕ) : ℤ), ?_, ?_⟩
      · rw [hmax, Int.cast_natCast, hprod]
        exact pow2_binExp_le |x| ha
      · rw [hmax, Int.cast_natCast, hprod]
        unfold pow2
        rw [if_pos (by omega)]
        have h1 : 1 < 2 ^ (binExp |x|).toNat := Nat.one_lt_two_pow (by omega)
        exact_mod_cast h1
  obtain ⟨m, hm1, hm2⟩ := hM
  have hy := abs_round_ge x (pow2 (max (binExp |x|) (-1022) - 52)) m hp
    (by rw [le_div_iff₀ hp]; exact hm1)
  have hgt : 1 < |((roundHalfEven (x / pow2 (max (binExp |x|) (-1022) - 52)) : ℤ) : ℚ) *
      pow2 (max (binExp |x|) (-1022) - 52)| := lt_of_lt_of_le hm2 hy
  simp only [roundDouble, hx, if_false]
  split_ifs <;> simp [JsNum.abs, JsNum.gt, hgt]

/-! ## Client reconciliation -/

theorem applyState_loaded (c : Client) (s : SyncState) (t : Nat)
    (hsrc : c.videoPlayer.src ≠ []) :
    (applyState c (some s) t).videoPlayer.currentTime =
      (if (JsNum.abs (doubleSub c.videoPlayer.currentTime s.currentTime)).gt (.fin 1) = true
       then s.currentTime else c.videoPlayer.currentTime) ∧
    (applyState c (some s) t).videoPlayer.paused =
      (if s.isPlaying = true ∧ c.videoPlayer.paused = true then false
       else if s.isPlaying = false ∧ c.videoPlayer.paused = false then true
       else c.videoPlayer.paused) ∧
    (applyState c (some s) t).ops =
      c.ops ++
        (if (JsNum.abs (doubleSub c.videoPlayer.currentTime s.currentTime)).gt (.fin 1) = true
         then [.seek s.currentTime] else []) ++
        (if s.isPlaying = true ∧ c.videoPlayer.paused = true then [.play]
         else if s.isPlaying = false ∧ c.videoPlayer.paused = false then [.pause]
         else []) ∧
    (applyState c (some s) t).suppressEvents = true ∧
    (applyState c (some s) t).timers = c.timers ++ [t + 150] ∧
    (applyState c (some s) t).sent = c.sent := by
  have hsrc1 : c.videoPlayer.src.isEmpty = false := by
    cases hs : c.videoPlayer.src with
    | nil => exact absurd hs hsrc
    | cons x xs => rfl
  cases hd : (JsNum.abs (doubleSub c.videoPlayer.currentTime s.currentTime)).gt (.fin 1) <;>
    cases hp : s.isPlaying <;> cases hq : c.videoPlayer.paused <;>
    simp [applyState, hsrc1, hd, hp, hq]

/-- C10: on a loaded video `applyState` moves the local position `p` to the
incoming one `q` exactly when `Math.abs(p - q) > 1` holds for the difference as
the program computes it, in double precision; this test fails whenever the exact
`|p - q|` is at most 1 and succeeds whenever it is at least `1 + 2 ^ (-52)`.
Apart from that `applyState` calls `play()` when the incoming state plays and
the player is paused, `pause()` when the incoming state is paused and the player
plays, and neither when the two agree. -/
theorem applyState_reconciles (c : Client) (s : SyncState) (t : Nat)
    (hsrc : c.videoPlayer.src ≠ []) :
    (applyState c (some s) t).videoPlayer.currentTime =
      (if (JsNum.abs (doubleSub c.videoPlayer.currentTime s.currentTime)).gt (.fin 1) = true
       then s.currentTime else c.videoPlayer.currentTime) ∧
    (applyState c (some s) t).videoPlayer.paused =
      (if s.isPlaying = true ∧ c.videoPlayer.paused = true then false
       else if s.isPlaying = false ∧ c.videoPlayer.paused = false then true
       else c.videoPlayer.paused) ∧
    (applyState c (some s) t).ops =
      c.ops ++
        (if (JsNum.abs (doubleSub c.videoPlayer.currentTime s.currentTime)).gt (.fin 1) = true
         then [.seek s.currentTime] else []) ++
        (if s.isPlaying = true ∧ c.videoPlayer.paused = true then [.play]
         else if s.isPlaying = false ∧ c.videoPlayer.paused = false then [.pause]
         else []) ∧
    (|c.videoPlayer.currentTime - s.currentTime| ≤ 1 →
      (JsNum.abs (doubleSub c.videoPlayer.currentTime s.currentTime)).gt (.fin 1) = false) ∧
    (1 + 1 / 2 ^ 52 ≤ |c.videoPlayer.currentTime - s.currentTime| →
      (JsNum.abs (doubleSub c.videoPlayer.currentTime s.currentTime)).gt (.fin 1) = true) := by
  have h := applyState_loaded c s t hsrc
  exact ⟨h.1, h.2.1, h.2.2.1, roundDouble_le_one _, roundDouble_gt_one _⟩

theorem applyState_reconciles_witness :
    (sampleClient 10 true).videoPlayer.src ≠ [] ∧
    (applyState (sampleClient 10 true)
      (some ⟨5854679515581645 / 562949953421312, true⟩) 0).ops = [.play] ∧
    (applyState (sampleClient 10 true)
      (some ⟨5854679515581645 / 562949953421312, true⟩) 0).videoPlayer.currentTime = 10 ∧
    (applyState (sampleClient 10 true) (some ⟨12, false⟩) 0).ops = [.seek 12] ∧
    (applyState (sampleClient 10 true) (some ⟨12, false⟩) 0).videoPlayer.currentTime = 12 := by
  have h1 := applyState_reconciles (sampleClient 10 true)
    ⟨5854679515581645 / 562949953421312, true⟩ 0 (by decide)
  have h2 := applyState_reconciles (sampleClient 10 true) ⟨12, false⟩ 0 (by decide)
  have e1 := h1.2.2.2.1 (by norm_num [sampleClient, abs_le])
  have e2 := h2.2.2.2.2 (by norm_num [sampleClient])
  rw [e1] at h1
  rw [e2] at h2
  refine ⟨by decide, ?_, ?_, ?_, ?_⟩
  · simpa [sampleClient] using h1.2.2.1
  · simpa [sampleClient] using h1.1
  · simpa [sampleClient] using h2.2.2.1
  · simpa [sampleClient] using h2.1

/-- The double nearest to 10.4, the incoming position of the drift scenario. -/
theorem roundDouble_ten_point_four :
    roundDouble (52 / 5) = .fin (5854679515581645 / 562949953421312) := by
  decide!

/-- Rounding at the threshold: for the doubles nearest to 0.3 and 1.3 the exact
difference is `1 + 2 ^ (-54)`, the computed one is 1, and no seek is made. -/
theorem applyState_rounds_difference :
    roundDouble (3 / 10) = .fin (5404319552844595 / 18014398509481984) ∧
    roundDouble (13 / 10) = .fin (5854679515581645 / 4503599627370496) ∧
    (1 : ℚ) < |5404319552844595 / 18014398509481984 - 5854679515581645 / 4503599627370496| ∧
    doubleSub (5404319552844595 / 18014398509481984) (5854679515581645 / 4503599627370496) =
      .fin (-1) ∧
    (applyState (sampleClient (5404319552844595 / 18014398509481984) true)
      (some ⟨5854679515581645 / 4503599627370496, false⟩) 0).ops = [] := by
  have hsub : doubleSub (5404319552844595 / 18014398509481984)
      (5854679515581645 / 4503599627370496) = .fin (-1) := by decide!
  have h := applyState_loaded (sampleClient (5404319552844595 / 18014398509481984) true)
    ⟨5854679515581645 / 4503599627370496, false⟩ 0 (by decide)
  refine ⟨by decide!, by decide!, by norm_num [lt_abs], hsub, ?_⟩
  rw [h.2.2.1]
  simp only [sampleClient, hsub]
  norm_num [JsNum.abs, JsNum.gt]

theorem runTimers_none_due (c : Client) (t : Nat) (h : ∀ due ∈ c.timers, t < due) :
    runTimers c t = c := by
  unfold runTimers
  rw [if_neg]
  simp only [List.any_eq_true, decide_eq_true_eq, not_exists, not_and, not_le]
  exact h

/-- Window of one call: after `applyState` at time `t` on a client with no
timeout pending, an `emitPlayerState` at any time before `t + 150` sends nothing. -/
theorem applyState_single_window (c : Client) (s : SyncState) (t u : Nat)
    (hsrc : c.videoPlayer.src ≠ []) (hpending : c.timers = []) (hu : u < t + 150) :
    (step (applyState c (some s) t) (u, .emitPlayerState)).sent = c.sent := by
  have h := applyState_loaded c s t hsrc
  have hnone : runTimers (applyState c (some s) t) u = applyState c (some s) t := by
    apply runTimers_none_due
    intro due hdue
    rw [h.2.2.2.2.1, hpending] at hdue
    simp at hdue
    omega
  simp only [step, hnone, emitPlayerState, h.2.2.2.1, Bool.or_true, if_true, h.2.2.2.2.2]

/-- C9 (failing run): `applyState` at 0 ms and again at 100 ms, the second
one seeking from 10 s to 20 s; the timeout of the first call runs at 150 ms and
lowers the flag, so the `emitPlayerState` of the `seeked` notification at
200 ms, inside the 150 ms that follow the second call, sends a request. -/
theorem stale_timeout_lowers_flag :
    (runTimers (run (sampleClient 10 false)
        [(0, .applyState (some ⟨10, true⟩)), (100, .applyState (some ⟨20, true⟩))])
      200).suppressEvents = false ∧
    (run (sampleClient 10 false)
        [(0, .applyState (some ⟨10, true⟩)), (100, .applyState (some ⟨20, true⟩)),
         (200, .emitPlayerState)]).sent = [⟨20, true⟩] := by
  have e0 : (JsNum.abs (doubleSub 10 10)).gt (.fin 1) = false :=
    roundDouble_le_one _ (by norm_num)
  have e1 : (JsNum.abs (doubleSub 10 20)).gt (.fin 1) = true :=
    roundDouble_gt_one _ (by norm_num)
  have s1 : applyState (sampleClient 10 false) (some ⟨10, true⟩) 0 =
      { sampleClient 10 false with suppressEvents := true, timers := [150] } := by
    simp [applyState, sampleClient, e0]
  have s2 : applyState { sampleClient 10 false with suppressEvents := true, timers := [150] }
      (some ⟨20, true⟩) 100 =
      { sampleClient 20 false with suppressEvents := true, timers := [150, 250],
                                   ops := [.seek 20] } := by
    simp [applyState, sampleClient, e1]
  have r2 : run (sampleClient 10 false)
      [(0, .applyState (some ⟨10, true⟩)), (100, .applyState (some ⟨20, true⟩))] =
      { sampleClient 20 false with suppressEvents := true, timers := [150, 250],
                                   ops := [.seek 20] } := by
    simp only [run, List.foldl_cons, List.foldl_nil, step]
    rw [show runTimers (sampleClient 10 false) 0 = sampleClient 10 false by
      simp [runTimers, sampleClient], s1]
    rw [show runTimers { sampleClient 10 false with suppressEvents := true, timers := [150] } 100
      = { sampleClient 10 false with suppressEvents := true, timers := [150] } by
      simp [runTimers, sampleClient], s2]
  have r3 : runTimers { sampleClient 20 false with suppressEvents := true, timers := [150, 250],
                                                   ops := [.seek 20] }
      200 = { sampleClient 20 false with suppressEvents := false, timers := [250],
                                         ops := [.seek 20] } := by
    simp [runTimers, sampleClient]
  constructor
  · rw [r2, r3]
  · have hrun : run (sampleClient 10 false)
        [(0, .applyState (some ⟨10, true⟩)), (100, .applyState (some ⟨20, true⟩)),
         (200, .emitPlayerState)] =
        step (run (sampleClient 10 false)
          [(0, .applyState (some ⟨10, true⟩)), (100, .applyState (some ⟨20, true⟩))])
          (200, .emitPlayerState) := rfl
    rw [hrun, r2]
    simp only [step, r3]
    simp [emitPlayerState, sampleClient]

end TEZ
